import Mathlib

/- A shallow embedding of the pi5-ptp repository: src/gps/spooler.py,
   src/gps/gps_watchdog.py and src/gps/gps_streamer.py.

   Conventions used throughout:
   - A stored line is a String without its trailing newline; its on-disk size
     is modelled as String.length + 1 (json.dumps emits ASCII by default, so
     characters coincide with UTF-8 bytes, plus one byte for the newline that
     append writes after each record).
   - The spool directory is modelled by the list of sealed segment files in
     mtime order (oldest first) together with the content written through the
     open active file handle and a flag recording whether the active file is
     still present in the directory: Spooler._enforce_size_limit unlinks files
     by mtime order and can reach the active file, while the Python handle
     stays open and keeps accepting writes that no longer land on disk.
   - Fallible operations are modelled with Except or explicit outcome values;
     record encoding (json.dumps) and decoding (json.loads) are abstract
     parameters enc / dec, and the sink call (requests.post) is an abstract
     parameter returning a success Boolean.
-/

namespace Spooler

/-- Byte size of one stored line including its trailing newline
(Spooler.append counts len of the utf-8 encoding of json.dumps plus newline). -/
def lineSize (l : String) : Nat := l.length + 1

/-- Total byte size of a list of lines: the st_size of a segment file. -/
def sizeLines (ls : List String) : Nat := (ls.map lineSize).sum

/-- Configuration: SPOOL_MAX_BYTES (max_bytes) and the fixed rotation
threshold of Spooler._rotate_if_needed (10_000_000 in the source). -/
structure Cfg where
  maxBytes : Nat
  rotateBytes : Nat
deriving DecidableEq

/-- State of the spool directory plus the open active file handle.
sealed lists the closed segment files in mtime order, oldest first; active is
the content written through the currently open handle; activeLinked records
whether the active file is still present in the directory (it is created on
disk by Spooler._open_new_file, but _enforce_size_limit can unlink it). -/
structure St where
  sealed : List (List String)
  active : List String
  activeLinked : Bool
deriving DecidableEq

/-- Spool state right after Spooler.__init__ ran on an empty directory:
_open_new_file has created a fresh, empty, on-disk active file. -/
def init : St := { sealed := [], active := [], activeLinked := true }

/-- The files that glob spool_*.log finds, in mtime order (oldest first):
sealed segments, then the active file while it is still linked. This is the
list Spooler.iter_files_in_order yields. -/
def onDiskFiles (st : St) : List (List String) :=
  st.sealed ++ (if st.activeLinked then [st.active] else [])

/-- All lines currently on disk, in FIFO order across segment files. -/
def onDiskLines (st : St) : List String := (onDiskFiles st).flatten

/-- Total on-disk spool size: the sum the source computes from stat st_size. -/
def totalBytes (st : St) : Nat := ((onDiskFiles st).map sizeLines).sum

/-- All lines ever written through the handle and not yet rotated away or
deleted: sealed content plus the active handle content (which may or may not
still be on disk). -/
def handleContent (st : St) : List String := st.sealed.flatten ++ st.active

/-- The while loop of Spooler._enforce_size_limit: files holds the glob
result in mtime order; while the total size of the remaining files exceeds
max_bytes, pop and unlink the oldest one. -/
def enforceFiles (maxB : Nat) : List (List String) → List (List String)
  | [] => []
  | f :: fs =>
    if sizeLines f + (fs.map sizeLines).sum > maxB then enforceFiles maxB fs
    else f :: fs

/-- Spooler._rotate_if_needed: if the handle has received more than the
rotation threshold, close the current file (it stays on disk only if it is
still linked) and open a fresh on-disk active file. -/
def rotate_if_needed (cfg : Cfg) (st : St) : St :=
  if sizeLines st.active > cfg.rotateBytes then
    { sealed := st.sealed ++ (if st.activeLinked then [st.active] else [])
      active := []
      activeLinked := true }
  else st

/-- Spooler._enforce_size_limit on the directory state: run the eviction
loop over the glob snapshot (sealed files then, if linked, the active file)
and record whether the active file survived. -/
def enforce_size_limit (cfg : Cfg) (st : St) : St :=
  if st.activeLinked then
    let r := enforceFiles cfg.maxBytes (st.sealed ++ [st.active])
    if r.isEmpty then { sealed := [], active := st.active, activeLinked := false }
    else { sealed := r.dropLast, active := st.active, activeLinked := true }
  else { sealed := enforceFiles cfg.maxBytes st.sealed, active := st.active, activeLinked := false }

/-- Spooler.append (lines 64-75 of spooler.py): write one encoded line to the
active handle, then _rotate_if_needed, then _enforce_size_limit. -/
def append {R : Type} (cfg : Cfg) (enc : R → String) (st : St) (r : R) : St :=
  enforce_size_limit cfg (rotate_if_needed cfg { st with active := st.active ++ [enc r] })

/-- A sequence of Spooler.append calls, oldest first. -/
def appendMany {R : Type} (cfg : Cfg) (enc : R → String) (st : St) (rs : List R) : St :=
  rs.foldl (append cfg enc) st

/-- How one call to the batch handler of Spooler.drain can end. A Python
handler reports failure by raising; drain reacts differently to a
FileNotFoundError (caught by the per-file except-continue clause) and to any
other exception (caught by the final except-break clause). -/
inductive HandlerRes
  | ok
  | raisedFnf
  | raisedOther
deriving DecidableEq

/-- The str.strip() of Python on a character list: drop whitespace from both
ends. -/
def stripChars (cs : List Char) : List Char :=
  ((cs.dropWhile Char.isWhitespace).reverse.dropWhile Char.isWhitespace).reverse

/-- str.strip() on a line. -/
def strip (l : String) : String := String.mk (stripChars l.data)

/-- The per-line parsing of Spooler.drain: strip the line, skip it when
empty, run json.loads (the abstract dec) and skip lines that fail to parse.
Returns the records of one segment file in order. -/
def parseLines {R : Type} (dec : String → Option R) : List String → List R
  | [] => []
  | l :: ls =>
    let t := stripChars l.data
    if t.isEmpty then parseLines dec ls
    else
      match dec (String.mk t) with
      | some r => r :: parseLines dec ls
      | none => parseLines dec ls

/-- The batching loop of Spooler.drain: records accumulate in acc and are
flushed to the handler as soon as the accumulated length reaches batch_size;
a final non-empty remainder is flushed at end of file. -/
def batchesGo {R : Type} (n : Nat) (acc : List R) : List R → List (List R)
  | [] => if acc.isEmpty then [] else [acc]
  | r :: rs =>
    if (acc ++ [r]).length ≥ n then (acc ++ [r]) :: batchesGo n [] rs
    else batchesGo n (acc ++ [r]) rs

/-- The batches drain hands to the handler for one segment file. -/
def batches {R : Type} (n : Nat) (rs : List R) : List (List R) := batchesGo n [] rs

/-- Outcome of processing one segment file in Spooler.drain, carrying the
handler state reached so far. -/
inductive SegOutcome (σ : Type)
  | ok (s : σ)
  | fnf (s : σ)
  | err (s : σ)
deriving DecidableEq

/-- Call the handler on each batch of one segment in order; the first
exception aborts the remaining batches of that segment. The handler is
stateful (a Python closure), modelled as σ → batch → HandlerRes × σ. -/
def runBatches {R σ : Type} (h : σ → List R → HandlerRes × σ) :
    σ → List (List R) → SegOutcome σ
  | s, [] => SegOutcome.ok s
  | s, b :: bs =>
    match h s b with
    | (HandlerRes.ok, s1) => runBatches h s1 bs
    | (HandlerRes.raisedFnf, s1) => SegOutcome.fnf s1
    | (HandlerRes.raisedOther, s1) => SegOutcome.err s1

/-- Processing of one segment file by Spooler.drain: parse its lines,
batch them, and feed the batches to the handler. -/
def procSeg {R σ : Type} (dec : String → Option R) (h : σ → List R → HandlerRes × σ)
    (n : Nat) (s : σ) (seg : List String) : SegOutcome σ :=
  runBatches h s (batches n (parseLines dec seg))

/-- Spooler.drain (lines 85-130 of spooler.py) with stop_event = None, on the
glob snapshot taken at loop start. Returns the final handler state and the
segment files still on disk afterwards:
- a fully handled segment is unlinked and the loop continues;
- a FileNotFoundError from inside the try block hits except-continue: the
  current segment is kept and the loop moves to the next file;
- any other exception hits except-break: the current segment and every later
  one are kept and draining stops. -/
def drain {R σ : Type} (dec : String → Option R) (h : σ → List R → HandlerRes × σ)
    (n : Nat) : σ → List (List String) → σ × List (List String)
  | s, [] => (s, [])
  | s, f :: fs =>
    match procSeg dec h n s f with
    | SegOutcome.ok s1 => drain dec h n s1 fs
    | SegOutcome.fnf s1 =>
      let p := drain dec h n s1 fs
      (p.1, f :: p.2)
    | SegOutcome.err s1 => (s1, f :: fs)

/-- Error message standing for the OSError a failing disk write raises. -/
def writeErr : String := "OSError: disk write failed"

/-- The line written by Spooler.append through the current file handle, as a
fallible operation: the underlying disk write either succeeds or raises. -/
def fileWrite (writeOk : Bool) (buf : List String) (l : String) : Except String (List String) :=
  if writeOk then Except.ok (buf ++ [l]) else Except.error writeErr

/-- Spooler.append with the underlying disk write made explicit. The Python
body of append (lines 64-75) contains no try/except: when the write fails,
the exception simply propagates out of append to the caller; when it
succeeds, rotation and retention enforcement run as in Spooler.append. -/
def appendFallible {R : Type} (cfg : Cfg) (enc : R → String) (writeOk : Bool)
    (st : St) (r : R) : Except String St :=
  match fileWrite writeOk st.active (enc r) with
  | Except.ok a => Except.ok (enforce_size_limit cfg (rotate_if_needed cfg { st with active := a }))
  | Except.error e => Except.error e

/-- The filename pattern spool_*.log used by the glob calls of both
Spooler.size_bytes and Watchdog.get_spool_usage. -/
def matchesGlob (name : String) : Bool :=
  (List.isPrefixOf ("spool_").data name.data) && (List.isSuffixOf (".log").data name.data)

/-- Spooler.size_bytes (lines 176-180): sum of st_size over the files of the
spool directory matching spool_*.log. The directory state is the list of
(name, st_size) entries, or none when the directory does not exist (pathlib
glob then yields nothing, so the sum is over the empty list). -/
def size_bytes (dir : Option (List (String × Nat))) : Nat :=
  (((dir.getD []).filter (fun f => matchesGlob f.1)).map (fun f => f.2)).sum

end Spooler

namespace Watchdog

/-- The state the Watchdog.run loop carries across iterations:
unhealthy_since, whether reboot_system has run (after which the loop has
returned), and how many times reboot_system was invoked. -/
structure St where
  unhealthySince : Option Nat
  rebooted : Bool
  reboots : Nat
deriving DecidableEq

/-- Watchdog state after __init__: unhealthy_since is None. -/
def init : St := { unhealthySince := none, rebooted := false, reboots := 0 }

/-- One iteration of the Watchdog.run while loop (lines 123-163 of
gps_watchdog.py), abstracted over one observation o = (now, unhealthy):
now is time.time() of the iteration and unhealthy the aggregate unhealthy
flag the iteration computed from its health checks. After reboot_system the
loop has returned, so further observations leave the state unchanged. -/
def step (thr : Nat) (st : St) (o : Nat × Bool) : St :=
  if st.rebooted then st
  else if o.2 then
    match st.unhealthySince with
    | none => { st with unhealthySince := some o.1 }
    | some t0 =>
      if o.1 - t0 > thr then { st with rebooted := true, reboots := st.reboots + 1 }
      else st
  else { st with unhealthySince := none }

/-- A finite execution of the Watchdog.run loop over a trace of
(time, unhealthy) observations, oldest first. -/
def run (thr : Nat) : St → List (Nat × Bool) → St
  | st, [] => st
  | st, o :: os => run thr (step thr st o) os

/-- The trace contains a continuously unhealthy stretch longer than the
threshold: an unhealthy observation at time t0, followed (possibly after
further unhealthy observations) by an unhealthy observation at time tN with
tN - t0 > thr, with nothing healthy in between. -/
def hasLongStreak (thr : Nat) (tr : List (Nat × Bool)) : Prop :=
  ∃ pre t0 mids tN post,
    tr = pre ++ (t0, true) :: (mids ++ (tN, true) :: post) ∧
    (∀ x ∈ mids, x.2 = true) ∧
    tN - t0 > thr

/-- Watchdog.get_spool_usage (lines 90-103): 0 when the spool directory does
not exist, otherwise the sum of st_size over the files matching spool_*.log
(a file vanishing between glob and stat is skipped; in this sequential model
every listed file is present). -/
def get_spool_usage (dir : Option (List (String × Nat))) : Nat :=
  match dir with
  | none => 0
  | some fs => ((fs.filter (fun f => Spooler.matchesGlob f.1)).map (fun f => f.2)).sum

end Watchdog

namespace GNSSStreamer

/-- A record as _write_to_influx consumes it: measurement, tags and fields
with their values already rendered to strings (str(v) for tags, json.dumps(v)
for fields; none stands for a value that is None and is skipped), and the
nanosecond timestamp int(ts * 1e9). -/
structure InfluxRecord where
  measurement : String
  tags : List (String × Option String)
  fields : List (String × Option String)
  timestampNs : Int
deriving DecidableEq

/-- One InfluxDB line-protocol line as built by _write_to_influx. -/
def influx_line (r : InfluxRecord) : String :=
  let tagStr := String.intercalate (",") (r.tags.filterMap (fun p => p.2.map (fun v => p.1 ++ ("=") ++ v)))
  let fieldStr := String.intercalate (",") (r.fields.filterMap (fun p => p.2.map (fun v => p.1 ++ ("=") ++ v)))
  r.measurement ++ (",") ++ tagStr ++ (" ") ++ fieldStr ++ (" ") ++ toString r.timestampNs

/-- The newline-joined payload _write_to_influx posts. -/
def influx_payload (rs : List InfluxRecord) : String :=
  String.intercalate ("\n") (rs.map influx_line)

/-- GNSSStreamer._write_to_influx (lines 209-251 of gps_streamer.py). post
abstracts requests.post on the fixed write endpoint: it consumes the payload
and returns whether the status code was 204 (an exception counts as false).
The second component records the request actually made: none means the
function returned before building a payload or touching the network. -/
def write_to_influx (post : String → Bool) (records : List InfluxRecord) : Bool × Option String :=
  if records.isEmpty then (true, none)
  else
    let payload := influx_payload records
    (post payload, some payload)

/-- The first definition of GNSSStreamer._handle_record (lines 256-266):
try one immediate delivery of [record]; append to the spool only on failure.
The Nat result counts the sink delivery attempts made. In the Python class
body this definition is shadowed by the later one and is never bound. -/
def handle_record_v1 {R : Type} (cfg : Spooler.Cfg) (enc : R → String)
    (deliver : List R → Bool) (sp : Spooler.St) (r : R) : Spooler.St × Nat :=
  if deliver [r] then (sp, 1) else (Spooler.append cfg enc sp r, 1)

/-- The second definition of GNSSStreamer._handle_record (lines 405-413).
Python binds class attributes in textual order, so this placeholder is the
definition the class actually uses: it appends every record to the spool and
never calls the sink. The Nat result counts the sink delivery attempts. -/
def handle_record {R : Type} (cfg : Spooler.Cfg) (enc : R → String)
    (deliver : List R → Bool) (sp : Spooler.St) (r : R) : Spooler.St × Nat :=
  (Spooler.append cfg enc sp r, 0)

end GNSSStreamer

open Spooler

/- Generic list lemmas used below. -/

lemma suffix_append_same {α : Type} {l1 l2 : List α} (t : List α) (h : l1 <:+ l2) :
    l1 ++ t <:+ l2 ++ t := by
  obtain ⟨u, hu⟩ := h
  exact ⟨u, by rw [← hu, List.append_assoc]⟩

lemma suffix_flatten {α : Type} {l1 l2 : List (List α)} (h : l1 <:+ l2) :
    l1.flatten <:+ l2.flatten := by
  obtain ⟨u, hu⟩ := h
  exact ⟨u.flatten, by rw [← hu, List.flatten_append]⟩

/- Size bookkeeping. -/

lemma sizeLines_append (a b : List String) :
    sizeLines (a ++ b) = sizeLines a + sizeLines b := by
  simp [sizeLines]

lemma sizeLines_flatten (l : List (List String)) :
    sizeLines l.flatten = (l.map sizeLines).sum := by
  induction l with
  | nil => simp [sizeLines]
  | cons a l ih => simp [sizeLines_append, ih]

/- Behaviour of the eviction loop of Spooler._enforce_size_limit. -/

lemma enforceFiles_total_le (m : Nat) (l : List (List String)) :
    ((enforceFiles m l).map sizeLines).sum ≤ m := by
  induction l with
  | nil => simp [enforceFiles]
  | cons f fs ih =>
    by_cases h : sizeLines f + (fs.map sizeLines).sum > m
    · simpa [enforceFiles, h] using ih
    · simp only [enforceFiles, if_neg h, List.map_cons, List.sum_cons]
      omega

lemma enforceFiles_suffix (m : Nat) (l : List (List String)) :
    enforceFiles m l <:+ l := by
  induction l with
  | nil => exact List.suffix_refl []
  | cons f fs ih =>
    by_cases h : sizeLines f + (fs.map sizeLines).sum > m
    · have he : enforceFiles m (f :: fs) = enforceFiles m fs := by simp [enforceFiles, h]
      rw [he]
      exact ih.trans (List.suffix_cons f fs)
    · have he : enforceFiles m (f :: fs) = f :: fs := by simp [enforceFiles, h]
      rw [he]

lemma enforceFiles_eq_self (m : Nat) (l : List (List String))
    (h : (l.map sizeLines).sum ≤ m) : enforceFiles m l = l := by
  cases l with
  | nil => rfl
  | cons f fs =>
    have hc : ¬ (sizeLines f + (fs.map sizeLines).sum > m) := by
      simp only [List.map_cons, List.sum_cons] at h
      omega
    simp [enforceFiles, hc]

lemma enforceFiles_cons (m : Nat) (f : List String) (fs : List (List String)) :
    enforceFiles m (f :: fs) =
      if sizeLines f + (fs.map sizeLines).sum > m then enforceFiles m fs else f :: fs := rfl

lemma enforceFiles_concat_cases (m : Nat) (l : List (List String)) (a : List String) :
    enforceFiles m (l ++ [a]) = [] ∨
      ∃ l2, l2 <:+ l ∧ enforceFiles m (l ++ [a]) = l2 ++ [a] := by
  induction l with
  | nil =>
    rw [List.nil_append]
    by_cases h : sizeLines a + (([] : List (List String)).map sizeLines).sum > m
    · left
      rw [enforceFiles_cons, if_pos h]
      rfl
    · right
      refine ⟨[], List.suffix_refl _, ?_⟩
      rw [enforceFiles_cons, if_neg h]
      rfl
  | cons f l ih =>
    rw [List.cons_append]
    by_cases h : sizeLines f + ((l ++ [a]).map sizeLines).sum > m
    · rw [enforceFiles_cons, if_pos h]
      rcases ih with h1 | ⟨l2, hsuf, heq⟩
      · left
        exact h1
      · right
        exact ⟨l2, hsuf.trans (List.suffix_cons f l), heq⟩
    · right
      rw [enforceFiles_cons, if_neg h]
      exact ⟨f :: l, List.suffix_refl _, rfl⟩

lemma enforceFiles_concat_nil (m : Nat) (l : List (List String)) (a : List String)
    (h : enforceFiles m (l ++ [a]) = []) : sizeLines a > m := by
  induction l with
  | nil =>
    by_cases hc : sizeLines a + (([] : List (List String)).map sizeLines).sum > m
    · simpa using hc
    · rw [List.nil_append, enforceFiles_cons, if_neg hc] at h
      simp at h
  | cons f l ih =>
    by_cases hc : sizeLines f + ((l ++ [a]).map sizeLines).sum > m
    · apply ih
      rw [List.cons_append, enforceFiles_cons, if_pos hc] at h
      exact h
    · rw [List.cons_append, enforceFiles_cons, if_neg hc] at h
      simp at h

/- Behaviour of Spooler._enforce_size_limit on the directory state. -/

lemma onDiskFiles_enforce (cfg : Cfg) (st : St) :
    onDiskFiles (enforce_size_limit cfg st) = enforceFiles cfg.maxBytes (onDiskFiles st) := by
  obtain ⟨se, ac, li⟩ := st
  cases li with
  | false => simp [enforce_size_limit, onDiskFiles]
  | true =>
    rcases enforceFiles_concat_cases cfg.maxBytes se ac with h0 | ⟨l2, _, heq⟩
    · simp [enforce_size_limit, onDiskFiles, h0]
    · simp [enforce_size_limit, onDiskFiles, heq]

lemma totalBytes_enforce_le (cfg : Cfg) (st : St) :
    totalBytes (enforce_size_limit cfg st) ≤ cfg.maxBytes := by
  rw [totalBytes, onDiskFiles_enforce]
  exact enforceFiles_total_le _ _

lemma enforce_eq_self (cfg : Cfg) (st : St) (h : totalBytes st ≤ cfg.maxBytes) :
    enforce_size_limit cfg st = st := by
  obtain ⟨se, ac, li⟩ := st
  cases li with
  | false =>
    have he : enforceFiles cfg.maxBytes se = se := by
      apply enforceFiles_eq_self
      simpa [totalBytes, onDiskFiles] using h
    simp [enforce_size_limit, he]
  | true =>
    have he : enforceFiles cfg.maxBytes (se ++ [ac]) = se ++ [ac] := by
      apply enforceFiles_eq_self
      simpa [totalBytes, onDiskFiles] using h
    simp [enforce_size_limit, he]

lemma enforce_unlinked (cfg : Cfg) (st : St) (h1 : st.activeLinked = true)
    (h2 : (enforce_size_limit cfg st).activeLinked = false) :
    (enforce_size_limit cfg st).sealed = [] ∧ sizeLines st.active > cfg.maxBytes := by
  obtain ⟨se, ac, li⟩ := st
  simp only at h1
  subst h1
  rcases enforceFiles_concat_cases cfg.maxBytes se ac with h0 | ⟨l2, _, heq⟩
  · refine ⟨by simp [enforce_size_limit, h0], enforceFiles_concat_nil _ _ _ h0⟩
  · exfalso
    simp [enforce_size_limit, heq] at h2

/- The on-disk lines, the handle content and their sizes. -/

lemma sizeLines_cons (l : String) (ls : List String) :
    sizeLines (l :: ls) = lineSize l + sizeLines ls := by
  simp [sizeLines]

lemma onDiskLines_linked (st : St) (h : st.activeLinked = true) :
    onDiskLines st = handleContent st := by
  obtain ⟨se, ac, li⟩ := st
  cases li with
  | false => simp at h
  | true => simp [onDiskLines, onDiskFiles, handleContent]

lemma totalBytes_eq_sizeLines (st : St) : totalBytes st = sizeLines (onDiskLines st) := by
  rw [onDiskLines, sizeLines_flatten]
  rfl

/-- Invariant of reachable spool states: the active file can only have been
unlinked after eviction already deleted every sealed file. -/
def UnlinkedInv (st : St) : Prop := st.activeLinked = false → st.sealed = []

lemma inv_enforce (cfg : Cfg) (st : St) (h : UnlinkedInv st) :
    UnlinkedInv (enforce_size_limit cfg st) := by
  obtain ⟨se, ac, li⟩ := st
  cases li with
  | false =>
    intro _
    have hse : se = [] := h rfl
    subst hse
    simp [enforce_size_limit, enforceFiles]
  | true =>
    intro h2
    rcases enforceFiles_concat_cases cfg.maxBytes se ac with h0 | ⟨l2, _, heq⟩
    · simp [enforce_size_limit, h0]
    · exfalso
      simp [enforce_size_limit, heq] at h2

lemma inv_rotate (cfg : Cfg) (st : St) (h : UnlinkedInv st) :
    UnlinkedInv (rotate_if_needed cfg st) := by
  intro h2
  by_cases hr : sizeLines st.active > cfg.rotateBytes
  · simp only [rotate_if_needed, if_pos hr] at h2
    exact Bool.noConfusion h2
  · simp only [rotate_if_needed, if_neg hr] at h2 ⊢
    exact h h2

lemma inv_append {R : Type} (cfg : Cfg) (enc : R → String) (st : St) (r : R)
    (h : UnlinkedInv st) : UnlinkedInv (append cfg enc st r) := by
  apply inv_enforce
  apply inv_rotate
  intro h2
  exact h h2

lemma inv_appendMany {R : Type} (cfg : Cfg) (enc : R → String) :
    ∀ (rs : List R) (st : St), UnlinkedInv st → UnlinkedInv (appendMany cfg enc st rs) := by
  intro rs
  induction rs with
  | nil => intro st h; exact h
  | cons r rs ih => intro st h; exact ih _ (inv_append cfg enc st r h)

lemma hc_rotate (cfg : Cfg) (st : St) (h : UnlinkedInv st) :
    handleContent (rotate_if_needed cfg st) <:+ handleContent st := by
  obtain ⟨se, ac, li⟩ := st
  by_cases hr : sizeLines ac > cfg.rotateBytes
  · cases li with
    | true =>
      have he : handleContent (rotate_if_needed cfg ⟨se, ac, true⟩) = handleContent ⟨se, ac, true⟩ := by
        simp [rotate_if_needed, hr, handleContent]
      rw [he]
    | false =>
      have hse : se = [] := h rfl
      subst hse
      have he : handleContent (rotate_if_needed cfg ⟨[], ac, false⟩) = [] := by
        simp [rotate_if_needed, hr, handleContent]
      rw [he]
      exact List.nil_suffix
  · have he : rotate_if_needed cfg ⟨se, ac, li⟩ = ⟨se, ac, li⟩ := by
      simp [rotate_if_needed, hr]
    rw [he]

lemma hc_enforce (cfg : Cfg) (st : St) (h : UnlinkedInv st) :
    handleContent (enforce_size_limit cfg st) <:+ handleContent st := by
  obtain ⟨se, ac, li⟩ := st
  cases li with
  | false =>
    have hse : se = [] := h rfl
    subst hse
    have he : enforce_size_limit cfg ⟨[], ac, false⟩ = ⟨[], ac, false⟩ := by
      simp [enforce_size_limit, enforceFiles]
    rw [he]
  | true =>
    rcases enforceFiles_concat_cases cfg.maxBytes se ac with h0 | ⟨l2, hsuf, heq⟩
    · have he : handleContent (enforce_size_limit cfg ⟨se, ac, true⟩) = ac := by
        simp [enforce_size_limit, h0, handleContent]
      rw [he]
      exact ⟨se.flatten, rfl⟩
    · have hne : (l2 ++ [ac]).isEmpty = false := by cases l2 <;> rfl
      have hres : enforce_size_limit cfg ⟨se, ac, true⟩ = ⟨l2, ac, true⟩ := by
        simp [enforce_size_limit, heq, hne, List.dropLast_concat]
      rw [hres]
      exact suffix_append_same ac (suffix_flatten hsuf)

lemma hc_append {R : Type} (cfg : Cfg) (enc : R → String) (st : St) (r : R)
    (h : UnlinkedInv st) :
    handleContent (append cfg enc st r) <:+ handleContent st ++ [enc r] := by
  have h1 : UnlinkedInv { st with active := st.active ++ [enc r] } := fun h2 => h h2
  have s1 := hc_enforce cfg _ (inv_rotate cfg _ h1)
  have s2 := hc_rotate cfg _ h1
  have s3 : handleContent { st with active := st.active ++ [enc r] } = handleContent st ++ [enc r] := by
    simp [handleContent]
  have s4 := s1.trans s2
  rw [s3] at s4
  exact s4

lemma hc_appendMany {R : Type} (cfg : Cfg) (enc : R → String) :
    ∀ (rs : List R) (st : St), UnlinkedInv st →
      handleContent (appendMany cfg enc st rs) <:+ handleContent st ++ rs.map enc := by
  intro rs
  induction rs with
  | nil =>
    intro st _
    simp [appendMany]
  | cons r rs ih =>
    intro st h
    have t1 := ih (append cfg enc st r) (inv_append cfg enc st r h)
    have t2 : handleContent (append cfg enc st r) ++ rs.map enc <:+
        (handleContent st ++ [enc r]) ++ rs.map enc :=
      suffix_append_same _ (hc_append cfg enc st r h)
    have t3 : (handleContent st ++ [enc r]) ++ rs.map enc =
        handleContent st ++ (r :: rs).map enc := by
      simp
    rw [t3] at t2
    exact t1.trans t2

lemma append_total_le {R : Type} (cfg : Cfg) (enc : R → String) (st : St) (r : R) :
    totalBytes (append cfg enc st r) ≤ cfg.maxBytes :=
  totalBytes_enforce_le cfg _

lemma appendMany_total_le {R : Type} (cfg : Cfg) (enc : R → String) :
    ∀ (rs : List R) (st : St), totalBytes st ≤ cfg.maxBytes →
      totalBytes (appendMany cfg enc st rs) ≤ cfg.maxBytes := by
  intro rs
  induction rs with
  | nil => intro st h; exact h
  | cons r rs ih => intro st _; exact ih _ (append_total_le cfg enc st r)

lemma totalBytes_init : totalBytes init = 0 := by
  simp [totalBytes, onDiskFiles, init, sizeLines, lineSize]

lemma onDiskLines_suffix_hc (st : St) (h : UnlinkedInv st) :
    onDiskLines st <:+ handleContent st := by
  obtain ⟨se, ac, li⟩ := st
  cases li with
  | true =>
    rw [onDiskLines_linked _ rfl]
  | false =>
    have hse : se = [] := h rfl
    subst hse
    have he : onDiskLines (⟨[], ac, false⟩ : St) = [] := by
      simp [onDiskLines, onDiskFiles]
    rw [he]
    exact List.nil_suffix

/- Appends below the retention ceiling: nothing is evicted and the handle
content grows exactly by the encoded lines. -/

lemma rotate_linked (cfg : Cfg) (se : List (List String)) (ac : List String) :
    (rotate_if_needed cfg ⟨se, ac, true⟩).activeLinked = true ∧
      handleContent (rotate_if_needed cfg ⟨se, ac, true⟩) = se.flatten ++ ac := by
  by_cases hr : sizeLines ac > cfg.rotateBytes
  · constructor
    · simp [rotate_if_needed, hr]
    · simp [rotate_if_needed, hr, handleContent]
  · constructor <;> simp [rotate_if_needed, hr, handleContent]

lemma append_no_evict {R : Type} (cfg : Cfg) (enc : R → String) (st : St) (r : R)
    (hl : st.activeLinked = true)
    (hsz : sizeLines (handleContent st ++ [enc r]) ≤ cfg.maxBytes) :
    (append cfg enc st r).activeLinked = true ∧
      handleContent (append cfg enc st r) = handleContent st ++ [enc r] := by
  obtain ⟨se, ac, li⟩ := st
  cases li with
  | false => simp at hl
  | true =>
    have hro := rotate_linked cfg se (ac ++ [enc r])
    have hhc : handleContent (rotate_if_needed cfg ⟨se, ac ++ [enc r], true⟩) =
        handleContent ⟨se, ac, true⟩ ++ [enc r] := by
      rw [hro.2]
      simp [handleContent]
    have htot : totalBytes (rotate_if_needed cfg ⟨se, ac ++ [enc r], true⟩) ≤ cfg.maxBytes := by
      rw [totalBytes_eq_sizeLines, onDiskLines_linked _ hro.1, hhc]
      exact hsz
    have h3 := enforce_eq_self cfg _ htot
    have e : append cfg enc ⟨se, ac, true⟩ r =
        enforce_size_limit cfg (rotate_if_needed cfg ⟨se, ac ++ [enc r], true⟩) := rfl
    rw [e, h3]
    exact ⟨hro.1, hhc⟩

lemma appendMany_no_evict {R : Type} (cfg : Cfg) (enc : R → String) :
    ∀ (rs : List R) (st : St), st.activeLinked = true →
      sizeLines (handleContent st ++ rs.map enc) ≤ cfg.maxBytes →
      (appendMany cfg enc st rs).activeLinked = true ∧
        handleContent (appendMany cfg enc st rs) = handleContent st ++ rs.map enc := by
  intro rs
  induction rs with
  | nil =>
    intro st hl _
    exact ⟨hl, by simp [appendMany]⟩
  | cons r rs ih =>
    intro st hl hsz
    have hz : sizeLines ([] : List String) = 0 := rfl
    have hs1 : sizeLines (handleContent st ++ [enc r]) ≤ cfg.maxBytes := by
      have hx := hsz
      rw [sizeLines_append] at hx ⊢
      have h1 : sizeLines [enc r] = lineSize (enc r) := by simp [sizeLines]
      have h2 : sizeLines ((r :: rs).map enc) = lineSize (enc r) + sizeLines (rs.map enc) := by
        simp [sizeLines]
      omega
    have ha := append_no_evict cfg enc st r hl hs1
    have hs2 : sizeLines (handleContent (append cfg enc st r) ++ rs.map enc) ≤ cfg.maxBytes := by
      rw [ha.2]
      have he : (handleContent st ++ [enc r]) ++ rs.map enc =
          handleContent st ++ (r :: rs).map enc := by
        simp
      rw [he]
      exact hsz
    have hrec := ih (append cfg enc st r) ha.1 hs2
    refine ⟨hrec.1, ?_⟩
    have e : appendMany cfg enc st (r :: rs) = appendMany cfg enc (append cfg enc st r) rs := rfl
    rw [e, hrec.2, ha.2]
    simp

/- Behaviour of Spooler.drain. -/

lemma parseLines_cons {R : Type} (dec : String → Option R) (l : String) (ls : List String) :
    parseLines dec (l :: ls) =
      if (stripChars l.data).isEmpty then parseLines dec ls
      else
        match dec (String.mk (stripChars l.data)) with
        | some r => r :: parseLines dec ls
        | none => parseLines dec ls := rfl

lemma parseLines_append {R : Type} (dec : String → Option R) (a b : List String) :
    parseLines dec (a ++ b) = parseLines dec a ++ parseLines dec b := by
  induction a with
  | nil => rfl
  | cons l ls ih =>
    rw [List.cons_append, parseLines_cons, parseLines_cons]
    by_cases hl : (stripChars l.data).isEmpty = true
    · rw [if_pos hl, if_pos hl, ih]
    · rw [if_neg hl, if_neg hl]
      cases hdec : dec (String.mk (stripChars l.data)) with
      | some r => simp [ih]
      | none => simp [ih]

lemma parseLines_flatten {R : Type} (dec : String → Option R) (fs : List (List String)) :
    (fs.map (parseLines dec)).flatten = parseLines dec fs.flatten := by
  induction fs with
  | nil => rfl
  | cons f fs ih => simp [parseLines_append, ih]

lemma batchesGo_cons {R : Type} (n : Nat) (acc : List R) (r : R) (rs : List R) :
    batchesGo n acc (r :: rs) =
      if (acc ++ [r]).length ≥ n then (acc ++ [r]) :: batchesGo n [] rs
      else batchesGo n (acc ++ [r]) rs := rfl

lemma batchesGo_flatten {R : Type} (n : Nat) :
    ∀ (rs acc : List R), (batchesGo n acc rs).flatten = acc ++ rs := by
  intro rs
  induction rs with
  | nil =>
    intro acc
    by_cases ha : acc.isEmpty
    · have : acc = [] := by cases acc with | nil => rfl | cons x xs => simp at ha
      simp [batchesGo, ha, this]
    · simp [batchesGo, ha]
  | cons r rs ih =>
    intro acc
    by_cases hn : (acc ++ [r]).length ≥ n
    · rw [batchesGo_cons, if_pos hn]
      simp [ih]
    · rw [batchesGo_cons, if_neg hn, ih]
      simp

lemma batches_flatten {R : Type} (n : Nat) (rs : List R) :
    (batches n rs).flatten = rs :=
  batchesGo_flatten n rs []

lemma runBatches_collect {R : Type} :
    ∀ (bs : List (List R)) (s : List R),
      runBatches (fun s b => (HandlerRes.ok, s ++ b)) s bs = SegOutcome.ok (s ++ bs.flatten) := by
  intro bs
  induction bs with
  | nil => intro s; simp [runBatches]
  | cons b bs ih =>
    intro s
    simp only [runBatches, ih, List.flatten_cons, List.append_assoc]

lemma procSeg_collect {R : Type} (dec : String → Option R) (n : Nat) (s : List R)
    (seg : List String) :
    procSeg dec (fun s b => (HandlerRes.ok, s ++ b)) n s seg =
      SegOutcome.ok (s ++ parseLines dec seg) := by
  rw [procSeg, runBatches_collect, batches_flatten]

lemma drain_collect {R : Type} (dec : String → Option R) (n : Nat) :
    ∀ (fs : List (List String)) (s : List R),
      drain dec (fun s b => (HandlerRes.ok, s ++ b)) n s fs =
        (s ++ parseLines dec fs.flatten, []) := by
  intro fs
  induction fs with
  | nil => intro s; simp [drain, parseLines]
  | cons f fs ih =>
    intro s
    simp only [drain, procSeg_collect, ih, parseLines_append, List.flatten_cons,
      List.append_assoc]

lemma parseLines_map_enc {R : Type} (enc : R → String) (dec : String → Option R) :
    ∀ rs : List R,
      (∀ r ∈ rs, stripChars (enc r).data = (enc r).data ∧ (enc r).data ≠ [] ∧
        dec (enc r) = some r) →
      parseLines dec (rs.map enc) = rs := by
  intro rs
  induction rs with
  | nil => intro _; rfl
  | cons r rs ih =>
    intro h
    have hr := h r (by simp)
    have hrest := fun x hx => h x (List.mem_cons_of_mem r hx)
    have heta : String.mk (enc r).data = enc r := rfl
    have hne : ((enc r).data).isEmpty = false := by
      cases hd : (enc r).data with
      | nil => exact absurd hd hr.2.1
      | cons c cs => rfl
    rw [List.map_cons, parseLines_cons, hr.1, heta, hr.2.2,
      if_neg (by simp [hne])]
    simp [ih hrest]

lemma parseLines_eq_filterMap {R : Type} (dec : String → Option R) (ls : List String) :
    parseLines dec ls =
      ls.filterMap (fun l =>
        if (stripChars l.data).isEmpty then none
        else dec (String.mk (stripChars l.data))) := by
  induction ls with
  | nil => rfl
  | cons l ls ih =>
    by_cases hl : (stripChars l.data).isEmpty = true
    · rw [parseLines_cons, if_pos hl, List.filterMap_cons, if_pos hl, ih]
    · rw [parseLines_cons, if_neg hl, List.filterMap_cons, if_neg hl]
      cases hdec : dec (String.mk (stripChars l.data)) with
      | some r => rw [ih]
      | none => rw [ih]

/- Behaviour of the Watchdog.run loop. -/

lemma wd_step_frozen (thr : Nat) (st : Watchdog.St) (o : Nat × Bool)
    (h : st.rebooted = true) : Watchdog.step thr st o = st := by
  simp [Watchdog.step, h]

lemma wd_step_healthy (thr : Nat) (st : Watchdog.St) (o : Nat × Bool)
    (h1 : st.rebooted = false) (h2 : o.2 = false) :
    (Watchdog.step thr st o).unhealthySince = none := by
  simp [Watchdog.step, h1, h2]

lemma wd_step_count (thr : Nat) (st : Watchdog.St) (o : Nat × Bool)
    (h : st.reboots = if st.rebooted then 1 else 0) :
    (Watchdog.step thr st o).reboots =
      if (Watchdog.step thr st o).rebooted then 1 else 0 := by
  by_cases hr : st.rebooted = true
  · rw [wd_step_frozen thr st o hr]
    exact h
  · have hr2 : st.rebooted = false := by simpa using hr
    have h0 : st.reboots = 0 := by simpa [hr2] using h
    by_cases ho : o.2 = true
    · cases hs : st.unhealthySince with
      | none => simp [Watchdog.step, hr2, ho, hs, h0]
      | some t0 =>
        by_cases hgt : o.1 - t0 > thr
        · simp [Watchdog.step, hr2, ho, hs, hgt, h0]
        · simp [Watchdog.step, hr2, ho, hs, hgt, h0]
    · have ho2 : o.2 = false := by simpa using ho
      simp [Watchdog.step, hr2, ho2, h0]

lemma wd_run_count (thr : Nat) :
    ∀ (os : List (Nat × Bool)) (st : Watchdog.St),
      st.reboots = (if st.rebooted then 1 else 0) →
      (Watchdog.run thr st os).reboots =
        (if (Watchdog.run thr st os).rebooted then 1 else 0) := by
  intro os
  induction os with
  | nil => intro st h; exact h
  | cons o os ih => intro st h; exact ih _ (wd_step_count thr st o h)

lemma wd_streak_cons (thr : Nat) (o : Nat × Bool) (os : List (Nat × Bool))
    (h : Watchdog.hasLongStreak thr os) : Watchdog.hasLongStreak thr (o :: os) := by
  obtain ⟨pre, t0, mids, tN, post, heq, hmids, hgt⟩ := h
  exact ⟨o :: pre, t0, mids, tN, post, by rw [heq, List.cons_append], hmids, hgt⟩

lemma wd_run_streak (thr : Nat) :
    ∀ (os : List (Nat × Bool)) (st : Watchdog.St),
      (Watchdog.run thr st os).rebooted = true →
      st.rebooted = true ∨
        (∃ t0, st.unhealthySince = some t0 ∧
          ∃ mids tN post, os = mids ++ (tN, true) :: post ∧
            (∀ x ∈ mids, x.2 = true) ∧ tN - t0 > thr) ∨
        Watchdog.hasLongStreak thr os := by
  intro os
  induction os with
  | nil =>
    intro st h
    left
    exact h
  | cons o os ih =>
    intro st h
    obtain ⟨oT, oU⟩ := o
    by_cases hr : st.rebooted = true
    · left
      exact hr
    · have hr2 : st.rebooted = false := by simpa using hr
      have hstep : Watchdog.run thr st ((oT, oU) :: os) =
          Watchdog.run thr (Watchdog.step thr st (oT, oU)) os := rfl
      rw [hstep] at h
      by_cases ho : oU = true
      · subst ho
        cases hs : st.unhealthySince with
        | none =>
          have hst : Watchdog.step thr st (oT, true) = { st with unhealthySince := some oT } := by
            simp [Watchdog.step, hr2, hs]
          rw [hst] at h
          rcases ih _ h with h1 | ⟨t0, hsome, mids, tN, post, heq, hmids, hgt⟩ | h3
          · exfalso
            simp [hr2] at h1
          · have ht0 : oT = t0 := by simpa using hsome
            subst ht0
            right; right
            exact ⟨[], oT, mids, tN, post, by rw [List.nil_append, heq], hmids, hgt⟩
          · right; right
            exact wd_streak_cons thr (oT, true) os h3
        | some t0 =>
          by_cases hgt : oT - t0 > thr
          · right; left
            exact ⟨t0, rfl, [], oT, os, by rw [List.nil_append], by simp, hgt⟩
          · have hst : Watchdog.step thr st (oT, true) = st := by
              simp [Watchdog.step, hr2, hs, hgt]
            rw [hst] at h
            rcases ih _ h with h1 | ⟨t0x, hsome, mids, tN, post, heq, hmids, hgt2⟩ | h3
            · left
              exact h1
            · have ht0 : t0x = t0 := by
                rw [hs] at hsome
                exact (Option.some.inj hsome).symm
              subst ht0
              right; left
              refine ⟨t0x, rfl, (oT, true) :: mids, tN, post, ?_, ?_, hgt2⟩
              · rw [List.cons_append, heq]
              · intro x hx
                rcases List.mem_cons.mp hx with h4 | h4
                · rw [h4]
                · exact hmids x h4
            · right; right
              exact wd_streak_cons thr (oT, true) os h3
      · have ho2 : oU = false := by simpa using ho
        subst ho2
        have hst : Watchdog.step thr st (oT, false) = { st with unhealthySince := none } := by
          simp [Watchdog.step, hr2]
        rw [hst] at h
        rcases ih _ h with h1 | ⟨t0, hsome, _⟩ | h3
        · exfalso
          simp [hr2] at h1
        · exfalso
          simp at hsome
        · right; right
          exact wd_streak_cons thr (oT, false) os h3

/- ===================== Claim theorems ===================== -/

/-- C1: divergence witness evaluated on the code. The claim (and the drain
docstring) say that when the batch handler reports failure, draining stops
immediately and nothing from the failing batch onward is deleted. But a
handler that raises FileNotFoundError on its first batch is caught by the
per-file except-continue clause of Spooler.drain: the first segment is
skipped (kept on disk) and draining continues, delivers the second segment
and deletes it. Here the handler fails on the very first batch, yet the
returned surviving file list is only the first segment — the second was
drained and unlinked after the failure. -/
theorem drain_fnf_divergence :
    drain (fun s => some (s))
      (fun (s : Nat) _b => (if s = 0 then HandlerRes.raisedFnf else HandlerRes.ok, s + 1))
      1000 0 [[("a")], [("b")]] = (2, [[("a")]]) := by
  decide

/-- C2 counterexample: the claim quantifies over every sequence of appended
records, but records whose total size exceeds max_bytes are evicted by
append itself, so a later always-succeeding drain does not observe them.
With max_bytes = 5, appending the single 8-character record makes retention
delete its segment; the drain then hands the handler nothing. -/
theorem fifo_eviction_cex :
    (drain (fun s => some (s)) (fun (s : List String) b => (HandlerRes.ok, s ++ b)) 1000 []
      (onDiskFiles (appendMany ⟨5, 10000000⟩ (fun s => s) init [("aaaaaaaa")]))).1 ≠
      [("aaaaaaaa")] := by
  decide

/-- C2 amended: for every sequence of records appended into a fresh spool
whose total encoded size fits within max_bytes (so retention never evicts),
draining through an always-succeeding handler delivers exactly the appended
records, each once, in append order, and consumes every segment file. The
encoding must round-trip: encoded lines are non-empty, strip-invariant, and
decode back to the record. -/
theorem fifo_exactly_once {R : Type} (cfg : Cfg) (enc : R → String)
    (dec : String → Option R) (n : Nat) (rs : List R)
    (henc : ∀ r ∈ rs, stripChars (enc r).data = (enc r).data ∧ (enc r).data ≠ [] ∧
      dec (enc r) = some r)
    (hsz : sizeLines (rs.map enc) ≤ cfg.maxBytes) :
    drain dec (fun s b => (HandlerRes.ok, s ++ b)) n []
      (onDiskFiles (appendMany cfg enc init rs)) = (rs, []) := by
  have hinit : (init : St).activeLinked = true := rfl
  have hsz2 : sizeLines (handleContent init ++ rs.map enc) ≤ cfg.maxBytes := by
    rw [show handleContent init = ([] : List String) from rfl, List.nil_append]
    exact hsz
  have hmain := appendMany_no_evict cfg enc rs init hinit hsz2
  have hlines : (onDiskFiles (appendMany cfg enc init rs)).flatten = rs.map enc := by
    have hl := onDiskLines_linked _ hmain.1
    rw [onDiskLines] at hl
    rw [hl, hmain.2, show handleContent init = ([] : List String) from rfl, List.nil_append]
  rw [drain_collect, List.nil_append, hlines, parseLines_map_enc enc dec rs henc]

/-- C2 witness: three records of two bytes each, batch size 2, max_bytes 100:
the drain delivers exactly the three records in order. -/
theorem fifo_exactly_once_witness :
    drain (fun s => some (s)) (fun (s : List String) b => (HandlerRes.ok, s ++ b)) 2 []
      (onDiskFiles (appendMany ⟨100, 100⟩ (fun s => s) init [("a"), ("b"), ("c")])) =
      ([("a"), ("b"), ("c")], []) :=
  fifo_exactly_once ⟨100, 100⟩ (fun s => s) (fun s => some (s)) 2 [("a"), ("b"), ("c")]
    (by decide) (by decide)

/-- C3: after any sequence of appends into a fresh spool, the total on-disk
size is at most max_bytes plus one rotation-threshold segment; the code in
fact restores the stronger bound of max_bytes itself after every append
(enforcement runs on the append path after rotation), and the lines
surviving on disk are always a suffix of the encoded appended lines — the
most recently appended records. -/
theorem append_retention_bound {R : Type} (cfg : Cfg) (enc : R → String) (rs : List R) :
    totalBytes (appendMany cfg enc init rs) ≤ cfg.maxBytes + cfg.rotateBytes ∧
    totalBytes (appendMany cfg enc init rs) ≤ cfg.maxBytes ∧
    onDiskLines (appendMany cfg enc init rs) <:+ rs.map enc := by
  have h2 : totalBytes (appendMany cfg enc init rs) ≤ cfg.maxBytes :=
    appendMany_total_le cfg enc rs init (by rw [totalBytes_init]; exact Nat.zero_le _)
  have hinv : UnlinkedInv init := fun _ => rfl
  have hfin := inv_appendMany cfg enc rs init hinv
  have hs1 := onDiskLines_suffix_hc _ hfin
  have hs2 := hc_appendMany cfg enc rs init hinv
  rw [show handleContent init = ([] : List String) from rfl, List.nil_append] at hs2
  exact ⟨h2.trans (Nat.le_add_right _ _), h2, hs1.trans hs2⟩

/-- C4 counterexample: the active segment is not exempt from retention
eviction. With max_bytes = 5, a single append of an 8-character record makes
_enforce_size_limit unlink every file including the active one (the handle
stays open but the file is gone from the directory). -/
theorem active_segment_eviction_cex :
    (appendMany ⟨5, 10000000⟩ (fun s => s) init [("aaaaaaaa")]).activeLinked = false := by
  decide

/-- C4 amended: retention enforcement deletes whole files oldest-first (the
surviving directory is a suffix of the mtime-ordered file list), drives the
total back to at most max_bytes, changes nothing when the total is already
within bounds, and reaches the active segment only as a last resort: the
active file is unlinked only after every sealed segment is gone and its own
size alone still exceeds max_bytes. -/
theorem enforce_oldest_first (cfg : Cfg) (st : St) :
    onDiskFiles (enforce_size_limit cfg st) <:+ onDiskFiles st ∧
    totalBytes (enforce_size_limit cfg st) ≤ cfg.maxBytes ∧
    (totalBytes st ≤ cfg.maxBytes → enforce_size_limit cfg st = st) ∧
    (st.activeLinked = true → (enforce_size_limit cfg st).activeLinked = false →
      (enforce_size_limit cfg st).sealed = [] ∧ sizeLines st.active > cfg.maxBytes) := by
  refine ⟨?_, totalBytes_enforce_le cfg st, enforce_eq_self cfg st, enforce_unlinked cfg st⟩
  rw [onDiskFiles_enforce]
  exact enforceFiles_suffix _ _

/-- C4 witness: on the concrete over-limit state the surviving files are a
suffix of the original ones, and the deleted active segment was indeed larger
than max_bytes. -/
theorem enforce_oldest_first_witness :
    onDiskFiles (enforce_size_limit ⟨5, 10000000⟩ ⟨[], [("aaaaaaaa")], true⟩) <:+
      onDiskFiles (⟨[], [("aaaaaaaa")], true⟩ : St) ∧
    sizeLines [("aaaaaaaa")] > 5 :=
  ⟨(enforce_oldest_first ⟨5, 10000000⟩ ⟨[], [("aaaaaaaa")], true⟩).1,
   ((enforce_oldest_first ⟨5, 10000000⟩ ⟨[], [("aaaaaaaa")], true⟩).2.2.2 rfl (by decide)).2⟩

/-- C5 counterexample: Spooler.append contains no exception handling, so a
failing disk write does not leave append returning normally — the OSError
propagates to the caller instead of being logged and swallowed. -/
theorem append_write_error_cex :
    appendFallible ⟨100, 100⟩ (fun s : String => s) false init ("x") =
      Except.error writeErr := rfl

/-- C5 amended: append returns normally exactly when the underlying disk
write succeeds, in which case it behaves as Spooler.append; when the write
raises, the exception propagates out of append (nothing inside append
catches or logs it). -/
theorem append_write_outcomes {R : Type} (cfg : Cfg) (enc : R → String) (st : St) (r : R) :
    appendFallible cfg enc true st r = Except.ok (append cfg enc st r) ∧
    appendFallible cfg enc false st r = Except.error writeErr :=
  ⟨rfl, rfl⟩

/-- C6: draining one segment with arbitrary line content through an
always-succeeding handler delivers exactly the records of the parseable
lines, in file order: blank lines and lines the decoder rejects are skipped
without being delivered, the drain is not aborted (it returns normally) and
the fully-consumed segment is deleted. -/
theorem corrupt_lines_skipped {R : Type} (dec : String → Option R) (n : Nat)
    (lines : List String) :
    drain dec (fun s b => (HandlerRes.ok, s ++ b)) n [] [lines] =
      (lines.filterMap (fun l =>
        if (stripChars l.data).isEmpty then none
        else dec (String.mk (stripChars l.data))), []) := by
  rw [drain_collect, List.nil_append,
    show ([lines] : List (List String)).flatten = lines by simp,
    parseLines_eq_filterMap]

/-- C7: divergence witness evaluated on the code. The class body of
GNSSStreamer defines _handle_record twice; Python keeps the later binding,
the placeholder that unconditionally spools. With a sink whose delivery
would succeed, the effective handler still makes zero delivery attempts and
appends the record to the spool, while the shadowed first definition would
have made exactly one attempt and not spooled. -/
theorem handle_record_shadowing :
    GNSSStreamer.handle_record ⟨100, 100⟩ (fun s : String => s) (fun _ => true) init ("x") =
      ((⟨[], [("x")], true⟩ : St), 0) ∧
    GNSSStreamer.handle_record_v1 ⟨100, 100⟩ (fun s : String => s) (fun _ => true) init ("x") =
      (init, 1) := by
  decide

/-- C8: over every finite observation trace of the Watchdog.run loop with the
source threshold of 900 seconds: reboot_system runs at most once; it runs
only if the trace contains a continuously-unhealthy stretch strictly longer
than 900 seconds; once rebooted the loop stops evaluating (further
observations change nothing); and any healthy evaluation resets the
continuity timer to none. -/
theorem wd_reboot_policy (trace : List (Nat × Bool)) :
    (Watchdog.run 900 Watchdog.init trace).reboots ≤ 1 ∧
    ((Watchdog.run 900 Watchdog.init trace).reboots = 1 →
      Watchdog.hasLongStreak 900 trace) ∧
    (∀ (st : Watchdog.St) (o : Nat × Bool), st.rebooted = true →
      Watchdog.step 900 st o = st) ∧
    (∀ (st : Watchdog.St) (o : Nat × Bool), st.rebooted = false → o.2 = false →
      (Watchdog.step 900 st o).unhealthySince = none) := by
  have hcount := wd_run_count 900 trace Watchdog.init rfl
  refine ⟨?_, ?_, fun st o h => wd_step_frozen 900 st o h,
    fun st o h1 h2 => wd_step_healthy 900 st o h1 h2⟩
  · rw [hcount]
    cases hrb : (Watchdog.run 900 Watchdog.init trace).rebooted <;> simp
  · intro h1
    have hrb : (Watchdog.run 900 Watchdog.init trace).rebooted = true := by
      by_contra hc
      have hf : (Watchdog.run 900 Watchdog.init trace).rebooted = false := by simpa using hc
      rw [hcount, hf] at h1
      simp at h1
    rcases wd_run_streak 900 trace Watchdog.init hrb with h2 | ⟨t0, hsome, _⟩ | h3
    · simp [Watchdog.init] at h2
    · simp [Watchdog.init] at hsome
    · exact h3

/-- C8 witness: a trace that is unhealthy at time 0 and still unhealthy at
time 1000 reboots, and the theorem then exhibits its long unhealthy streak. -/
theorem wd_reboot_policy_witness :
    Watchdog.hasLongStreak 900 [(0, true), (1000, true)] :=
  (wd_reboot_policy [(0, true), (1000, true)]).2.1 (by decide)

/-- C9: Spooler.size_bytes and Watchdog.get_spool_usage compute the same
number on every spool directory state (absent directory included): both sum
st_size over the files matching spool_*.log. -/
theorem spool_size_metrics_agree (dir : Option (List (String × Nat))) :
    size_bytes dir = Watchdog.get_spool_usage dir := by
  cases dir with
  | none => rfl
  | some fs => rfl

/-- C10: delivering the empty batch trivially succeeds: _write_to_influx
returns True on the empty record list without building a payload and without
any network request (the request component is none). -/
theorem write_to_influx_empty (post : String → Bool) :
    GNSSStreamer.write_to_influx post [] = (true, none) := rfl
